import Mathlib

set_option autoImplicit false
set_option maxHeartbeats 1000000

/-!
Shallow embedding of the femwell meshing core (src/mesh.py).

The file models, directly from the source:
  - the `MeshTracker` registry (shapely/gmsh parallel lists with a
    tolerance-based linear scan),
  - the channel-loop builder `xy_channel_loop_from_vertices`,
  - the surface assembler `add_xy_surface`,
  - the layer-tiling loop and surface loop of `mesh_from_polygons`.

Modelling conventions:
  - floating-point coordinates become rationals;
  - gmsh model entities (points, lines, curve loops, plane surfaces) are
    external objects created by `model.add_*` calls; they are modelled as
    1-based integer handles together with a record of every call made, so
    that handle identity and call counts are observable;
  - shapely `equals_exact(g, tol)` compares corresponding coordinates in
    order, each within Euclidean distance `tol` (order-sensitive for
    LineString, exactly as in shapely/GEOS);
  - accessing `.boundary.geoms` of a closed (zero-length) LineString
    raises in Python (the boundary is empty and the 2-tuple unpacking
    fails), modelled with `Except`;
  - the shapely polygon `difference` call is an external-library call; the
    tiling loop is therefore parametrised by the difference function it
    applies, and set-level claims instantiate it with set difference on
    finite sets of sample points.
-/

/-- A 2D coordinate as carried by a shapely Point. -/
structure Pt where
  x : ℚ
  y : ℚ
  deriving DecidableEq, Repr

/-- shapely `p.equals_exact(q, tol)` for points: the coordinates agree up to
Euclidean distance `tol`. -/
def equals_exact (atol : ℚ) (p q : Pt) : Bool :=
  decide ((p.x - q.x) ^ 2 + (p.y - q.y) ^ 2 ≤ atol ^ 2)

/-- shapely `equals_exact` for two-point LineStrings: corresponding
coordinates, in order, each within `tol`. This is order-sensitive, as in
shapely: a reversed LineString is not `equals_exact` to the original. -/
def lineEqualsExact (atol : ℚ) (l1 l2 : Pt × Pt) : Bool :=
  equals_exact atol l1.1 l2.1 && equals_exact atol l1.2 l2.2

/-- Index of the first list element satisfying `f`, as produced by the
`for index, element in enumerate(...)` scans of the registry. -/
def firstIdxWhere {α : Type} (f : α → Bool) : List α → Option ℕ
  | [] => none
  | a :: l => if f a then some 0 else (firstIdxWhere f l).map (· + 1)

/-- The external gmsh/pygmsh model, recorded as the sequence of entity
creation calls. Handles are 1-based, as gmsh tags are. -/
structure GmshModel where
  points : List (Pt × Option ℚ)
  lines : List (ℕ × ℕ)
  curveLoops : List (List ℤ)
  planeSurfaces : List (ℕ × List ℕ)
  deriving DecidableEq, Repr

/-- `model.add_point([x, y], mesh_size=resolution)`: returns a fresh handle. -/
def GmshModel.add_point (m : GmshModel) (p : Pt) (mesh_size : Option ℚ) :
    ℕ × GmshModel :=
  (m.points.length + 1, { m with points := m.points ++ [(p, mesh_size)] })

/-- `model.add_line(p1, p2)`: returns a fresh handle. -/
def GmshModel.add_line (m : GmshModel) (h1 h2 : ℕ) : ℕ × GmshModel :=
  (m.lines.length + 1, { m with lines := m.lines ++ [(h1, h2)] })

/-- `model.add_curve_loop(edges)`: returns a fresh handle. -/
def GmshModel.add_curve_loop (m : GmshModel) (edges : List ℤ) : ℕ × GmshModel :=
  (m.curveLoops.length + 1, { m with curveLoops := m.curveLoops ++ [edges] })

/-- `model.add_plane_surface(loop, holes=hole_loops)`: returns a fresh handle. -/
def GmshModel.add_plane_surface (m : GmshModel) (loop : ℕ) (holes : List ℕ) :
    ℕ × GmshModel :=
  (m.planeSurfaces.length + 1,
   { m with planeSurfaces := m.planeSurfaces ++ [(loop, holes)] })

/-- The `MeshTracker` state from src/mesh.py: parallel shapely/gmsh lists,
the gmsh model, and the matching tolerance (default 1E-3). -/
structure MeshTracker where
  shapely_points : List Pt
  gmsh_points : List ℕ
  shapely_xy_lines : List (Pt × Pt)
  gmsh_xy_lines : List ℕ
  gmsh_xy_surfaces : List ℕ
  model : GmshModel
  atol : ℚ
  deriving DecidableEq, Repr

/-- `MeshTracker.__init__(model, atol)`: all registry lists start empty. -/
def MeshTracker.init (atol : ℚ) : MeshTracker :=
  ⟨[], [], [], [], [], ⟨[], [], [], []⟩, atol⟩

/-- `MeshTracker.get_point_index`: linear scan of `shapely_points` for the
first point `equals_exact` to the query within `atol`. -/
def MeshTracker.get_point_index (t : MeshTracker) (xy_point : Pt) : Option ℕ :=
  firstIdxWhere (fun shapely_point => equals_exact t.atol xy_point shapely_point)
    t.shapely_points

/-- `MeshTracker.get_xy_line_index_and_orientation`: linear scan of
`shapely_xy_lines` for a stored line `equals_exact` to
`LineString([xy_point1, xy_point2])`. On a match the first boundary points
of both lines are compared to report the orientation; unpacking the
boundary of a closed (degenerate) LineString raises a ValueError in
Python, modelled by the error case. On no match the Python code returns
`(None, 1)`; the truthy `1` is modelled as `true`. -/
def MeshTracker.get_xy_line_index_and_orientation (t : MeshTracker)
    (xy_point1 xy_point2 : Pt) : Except String (Option ℕ × Bool) :=
  match firstIdxWhere
      (fun shapely_line => lineEqualsExact t.atol (xy_point1, xy_point2) shapely_line)
      t.shapely_xy_lines with
  | some index =>
    let stored := t.shapely_xy_lines.getD index (xy_point1, xy_point2)
    if xy_point1 = xy_point2 ∨ stored.1 = stored.2 then
      Except.error "ValueError: not enough values to unpack"
    else
      Except.ok (some index, equals_exact t.atol xy_point1 stored.1)
  | none => Except.ok (none, true)

/-- `MeshTracker.add_get_point`: return the gmsh handle of an existing
matching point, or register the shapely point and a fresh gmsh point
(with the resolution hint as mesh size when supplied). -/
def MeshTracker.add_get_point (t : MeshTracker) (shapely_xy_point : Pt)
    (resolution : Option ℚ) : ℕ × MeshTracker :=
  match t.get_point_index shapely_xy_point with
  | some index => (t.gmsh_points.getD index 0, t)
  | none =>
    let r := t.model.add_point shapely_xy_point resolution
    (r.1, { t with
              model := r.2
              shapely_points := t.shapely_points ++ [shapely_xy_point]
              gmsh_points := t.gmsh_points ++ [r.1] })

/-- `MeshTracker.add_get_xy_line`: return the existing gmsh line and its
orientation flag, or register the two endpoints via `add_get_point`, add a
fresh gmsh line, and store the shapely line in the query order. -/
def MeshTracker.add_get_xy_line (t : MeshTracker)
    (shapely_xy_point1 shapely_xy_point2 : Pt) :
    Except String ((ℕ × Bool) × MeshTracker) :=
  match t.get_xy_line_index_and_orientation shapely_xy_point1 shapely_xy_point2 with
  | Except.error e => Except.error e
  | Except.ok (some index, orientation) =>
    Except.ok ((t.gmsh_xy_lines.getD index 0, orientation), t)
  | Except.ok (none, orientation) =>
    let r1 := t.add_get_point shapely_xy_point1 none
    let r2 := r1.2.add_get_point shapely_xy_point2 none
    let rl := r2.2.model.add_line r1.1 r2.1
    Except.ok ((rl.1, orientation),
      { r2.2 with
          model := rl.2
          shapely_xy_lines := r2.2.shapely_xy_lines ++ [(shapely_xy_point1, shapely_xy_point2)]
          gmsh_xy_lines := r2.2.gmsh_xy_lines ++ [rl.1] })

/-- The consecutive vertex pairs `(vertices[i], vertices[i+1])` for
`i in range(0, len(vertices)-1)`. -/
def consecPairs (vertices : List Pt) : List (Pt × Pt) :=
  vertices.zip vertices.tail

/-- The edge-building loop of `xy_channel_loop_from_vertices`: for each
consecutive pair call `add_get_xy_line` and record the signed gmsh line,
negated when the reported orientation does not match. -/
def loopEdges (t : MeshTracker) : List (Pt × Pt) →
    Except String (List ℤ × MeshTracker)
  | [] => Except.ok ([], t)
  | (vertex1, vertex2) :: rest =>
    match t.add_get_xy_line vertex1 vertex2 with
    | Except.error e => Except.error e
    | Except.ok ((gmsh_line, orientation), t1) =>
      match loopEdges t1 rest with
      | Except.error e => Except.error e
      | Except.ok (edges, t2) =>
        Except.ok ((if orientation then (gmsh_line : ℤ) else -(gmsh_line : ℤ)) :: edges, t2)

/-- `MeshTracker.xy_channel_loop_from_vertices`: build the signed edges and
create the gmsh curve loop. -/
def MeshTracker.xy_channel_loop_from_vertices (t : MeshTracker)
    (vertices : List Pt) : Except String (ℕ × MeshTracker) :=
  match loopEdges t (consecPairs vertices) with
  | Except.error e => Except.error e
  | Except.ok (edges, t1) =>
    let r := t1.model.add_curve_loop edges
    Except.ok (r.1, { t1 with model := r.2 })

/-- A shapely geometry as produced by polygon difference: a single polygon
(exterior ring plus interior rings, each ring listing its coordinates with
the closing duplicate, as shapely ring coords do — an empty polygon has an
empty exterior coordinate list), or a multi-polygon of such parts. -/
inductive Geometry where
  | polygon (exterior : List Pt) (interiors : List (List Pt))
  | multipolygon (parts : List (List Pt × List (List Pt)))
  deriving DecidableEq, Repr

/-- The per-ring registration loop of `add_xy_surface`: each coordinate of
the ring is passed to `add_get_point` with the resolution of the surface. -/
def MeshTracker.addRingPoints (t : MeshTracker) (ring : List Pt)
    (resolution : Option ℚ) : MeshTracker :=
  ring.foldl (fun s vertex => (s.add_get_point vertex resolution).2) t

/-- The hole loop of `add_xy_surface`: for each interior ring, register its
vertices, then build its channel loop; the loop handles are collected in
order. -/
def MeshTracker.addHoleLoops (t : MeshTracker) (holes : List (List Pt))
    (resolution : Option ℚ) : Except String (List ℕ × MeshTracker) :=
  match holes with
  | [] => Except.ok ([], t)
  | ring :: rest =>
    let t1 := t.addRingPoints ring resolution
    match t1.xy_channel_loop_from_vertices ring with
    | Except.error e => Except.error e
    | Except.ok (hole_loop, t2) =>
      match t2.addHoleLoops rest resolution with
      | Except.error e => Except.error e
      | Except.ok (hole_loops, t3) => Except.ok (hole_loop :: hole_loops, t3)

/-- `MeshTracker.add_xy_surface`: parse the holes, then the exterior
boundary, then create the gmsh plane surface. The code accesses
`.interiors` and `.exterior` of the argument, attributes that only a
single Polygon has; on a MultiPolygon the Python code raises an
AttributeError, modelled by the error case. -/
def MeshTracker.add_xy_surface (t : MeshTracker) (shapely_xy_polygon : Geometry)
    (resolution : Option ℚ) : Except String (ℕ × MeshTracker) :=
  match shapely_xy_polygon with
  | Geometry.multipolygon _ =>
    Except.error "AttributeError: MultiPolygon object has no attribute interiors"
  | Geometry.polygon exterior interiors =>
    match t.addHoleLoops interiors resolution with
    | Except.error e => Except.error e
    | Except.ok (hole_loops, t1) =>
      let t2 := t1.addRingPoints exterior resolution
      match t2.xy_channel_loop_from_vertices exterior with
      | Except.error e => Except.error e
      | Except.ok (channel_loop, t3) =>
        let r := t3.model.add_plane_surface channel_loop hole_loops
        Except.ok (r.1, { t3 with model := r.2 })

/-- The layer-tiling loop of `mesh_from_polygons`, parametrised by the
external shapely `difference` call: iterate the entries of the ordered
mapping from the last index down to the first, and subtract from each
entry every earlier-indexed polygon, in descending index order. The
resulting list holds the tiled entries in the reversed iteration order, as
`polygons_tiled_dict` does. -/
def tilePolygons {γ : Type} (diff : γ → γ → γ) (ps : List (String × γ)) :
    List (String × γ) :=
  (ps.enum.reverse).map (fun e =>
    (e.2.1, (((ps.take e.1).map Prod.snd).reverse).foldl diff e.2.2))

/-- The surface loop of `mesh_from_polygons` over the tiled entries (already
in iteration order): look up the per-name resolution — with `resolutions`
equal to `None` the Python expression `resolutions.keys()` raises an
AttributeError — then add the surface and attach the physical label. -/
def assembleSurfaces (t : MeshTracker) (entries : List (String × Geometry))
    (resolutions : Option (List (String × ℚ))) :
    Except String (MeshTracker × List (ℕ × String)) :=
  match entries with
  | [] => Except.ok (t, [])
  | (polygon_name, polygon) :: rest =>
    match resolutions with
    | none => Except.error "AttributeError: NoneType object has no attribute keys"
    | some table =>
      match t.add_xy_surface polygon (table.lookup polygon_name) with
      | Except.error e => Except.error e
      | Except.ok (plane_surface, t1) =>
        match assembleSurfaces t1 rest resolutions with
        | Except.error e => Except.error e
        | Except.ok (t2, physicals) =>
          Except.ok (t2, (plane_surface, polygon_name) :: physicals)

/-- The output of a build: the global resolution bounds handed to the
geometry, the final tracker, and the physical labels attached to surfaces
and to the unique boundary lines. -/
structure MeshResult where
  characteristic_length_min : ℚ
  characteristic_length_max : ℚ
  tracker : MeshTracker
  surface_physicals : List (ℕ × String)
  line_physicals : List (ℕ × String)
  deriving DecidableEq, Repr

/-- `mesh_from_polygons`: tile the ordered polygon mapping, assemble the
surfaces over the tiled entries in reversed (that is, original input)
order with a fresh tracker at the default tolerance 1E-3, then label every
tracked line `line_i`. The external duplicate-removal and mesh-generation
calls touch only the external gmsh state. -/
def mesh_from_polygons (diff : Geometry → Geometry → Geometry)
    (polygon_dict : List (String × Geometry))
    (resolutions : Option (List (String × ℚ)))
    (default_resolution_min default_resolution_max : ℚ) :
    Except String MeshResult :=
  let polygons_tiled_dict := tilePolygons diff polygon_dict
  match assembleSurfaces (MeshTracker.init (1 / 1000))
      polygons_tiled_dict.reverse resolutions with
  | Except.error e => Except.error e
  | Except.ok (t, surface_physicals) =>
    Except.ok
      { characteristic_length_min := default_resolution_min
        characteristic_length_max := default_resolution_max
        tracker := t
        surface_physicals := surface_physicals
        line_physicals :=
          t.gmsh_xy_lines.enum.map (fun e => (e.2, "line_" ++ toString e.1)) }

/-! ### Derived definitions used by the verification -/

/-- Input-order form of the tiling loop, used to reason about
`tilePolygons`: `acc` holds the polygons of the already-processed
earlier-indexed entries, most recent first, so a left fold over `acc`
performs the descending-index subtraction of the source loop. -/
def tileInOrder {γ : Type} (diff : γ → γ → γ) (acc : List γ) :
    List (String × γ) → List (String × γ)
  | [] => []
  | (name, p) :: rest =>
    (name, acc.foldl diff p) :: tileInOrder diff (p :: acc) rest

/-- Union of a list of finite sets of sample points. -/
def unionList {α : Type} [DecidableEq α] (l : List (Finset α)) : Finset α :=
  l.foldr (· ∪ ·) ∅

/-- Wellformedness of a tracker: the parallel shapely/gmsh lists have equal
lengths, and every recorded gmsh handle refers to an entity already
created in the model. -/
def MeshTracker.WF (t : MeshTracker) : Prop :=
  t.gmsh_points.length = t.shapely_points.length ∧
  t.gmsh_xy_lines.length = t.shapely_xy_lines.length ∧
  (∀ h ∈ t.gmsh_points, 1 ≤ h ∧ h ≤ t.model.points.length) ∧
  (∀ h ∈ t.gmsh_xy_lines, 1 ≤ h ∧ h ≤ t.model.lines.length)

/-- Registry growth from `t` to `u`: every existing entry is preserved in
place (each list is extended by appending only), the external model only
gains entities, and the tolerance is unchanged. -/
def MeshTracker.Extends (t u : MeshTracker) : Prop :=
  (∃ l, u.shapely_points = t.shapely_points ++ l) ∧
  (∃ l, u.gmsh_points = t.gmsh_points ++ l) ∧
  (∃ l, u.shapely_xy_lines = t.shapely_xy_lines ++ l) ∧
  (∃ l, u.gmsh_xy_lines = t.gmsh_xy_lines ++ l) ∧
  t.model.points.length ≤ u.model.points.length ∧
  t.model.lines.length ≤ u.model.lines.length ∧
  u.atol = t.atol

/-- The unit square ring, closing duplicate included, as shapely ring
coordinates carry it. -/
def unitSquareRing : List Pt := [⟨0,0⟩, ⟨1,0⟩, ⟨1,1⟩, ⟨0,1⟩, ⟨0,0⟩]

/-- Concrete stand-in for the external shapely difference on the inputs of
the full-eclipse scenario: the difference of two identical polygons is the
empty polygon (as in shapely); any other pair is left unchanged — the
scenario below only exercises the identical case. -/
def diffEclipse : Geometry → Geometry → Geometry :=
  fun a b => if a = b then Geometry.polygon [] [] else a

/-- Two identical unit squares, r0 declared first, r1 second. -/
def eclipseInput : List (String × Geometry) :=
  [("r0", Geometry.polygon unitSquareRing []),
   ("r1", Geometry.polygon unitSquareRing [])]

/-- A 3 x 1 rectangle ring. -/
def longRectRing : List Pt := [⟨0,0⟩, ⟨3,0⟩, ⟨3,1⟩, ⟨0,1⟩, ⟨0,0⟩]

/-- The middle third of the rectangle. -/
def midStripRing : List Pt := [⟨1,0⟩, ⟨2,0⟩, ⟨2,1⟩, ⟨1,1⟩, ⟨1,0⟩]

/-- The left part left over after subtracting the middle strip. -/
def leftSquareRing : List Pt := [⟨0,0⟩, ⟨1,0⟩, ⟨1,1⟩, ⟨0,1⟩, ⟨0,0⟩]

/-- The right part left over after subtracting the middle strip. -/
def rightSquareRing : List Pt := [⟨2,0⟩, ⟨3,0⟩, ⟨3,1⟩, ⟨2,1⟩, ⟨2,0⟩]

/-- The rectangle as a geometry. -/
def longRect : Geometry := Geometry.polygon longRectRing []

/-- The middle strip as a geometry. -/
def midStrip : Geometry := Geometry.polygon midStripRing []

/-- Concrete stand-in for the external shapely difference in the split
scenario: subtracting the middle strip from the long rectangle yields the
two-part multi-polygon (as shapely does); any other pair is left
unchanged — the scenario below only exercises the split case. -/
def diffSplit : Geometry → Geometry → Geometry := fun a b =>
  if a = longRect ∧ b = midStrip then
    Geometry.multipolygon [(leftSquareRing, []), (rightSquareRing, [])]
  else a

/-- A tracker holding one registered point (0,0) with gmsh handle 1. -/
def onePointTracker : MeshTracker :=
  ⟨[⟨0, 0⟩], [1], [], [], [], ⟨[(⟨0, 0⟩, none)], [], [], []⟩, 1 / 1000⟩

/-- A query point within the default tolerance of (0,0). -/
def nearbyPoint : Pt := ⟨0, 1 / 2000⟩

/-- Decidable equality of run results, used to evaluate concrete builds. -/
instance {ε α : Type} [DecidableEq ε] [DecidableEq α] : DecidableEq (Except ε α)
  | Except.error e1, Except.error e2 =>
    if h : e1 = e2 then Decidable.isTrue (congrArg Except.error h)
    else Decidable.isFalse (fun hc => h (Except.error.inj hc))
  | Except.error _, Except.ok _ => Decidable.isFalse (fun hc => Except.noConfusion hc)
  | Except.ok _, Except.error _ => Decidable.isFalse (fun hc => Except.noConfusion hc)
  | Except.ok a1, Except.ok a2 =>
    if h : a1 = a2 then Decidable.isTrue (congrArg Except.ok h)
    else Decidable.isFalse (fun hc => h (Except.ok.inj hc))

/-! ### Lemmas about the linear scans -/

theorem firstIdxWhere_eq_none_iff {α : Type} (f : α → Bool) (l : List α) :
    firstIdxWhere f l = none ↔ ∀ x ∈ l, f x = false := by
  induction l with
  | nil => simp [firstIdxWhere]
  | cons a l ih =>
    cases hfa : f a with
    | true => simp [firstIdxWhere, hfa]
    | false => simp [firstIdxWhere, hfa, ih]

theorem firstIdxWhere_eq_some {α : Type} (f : α → Bool) (l : List α) (i : ℕ)
    (h : firstIdxWhere f l = some i) :
    ∃ a, l.get? i = some a ∧ f a = true ∧
      ∀ j b, j < i → l.get? j = some b → f b = false := by
  induction l generalizing i with
  | nil => simp [firstIdxWhere] at h
  | cons a l ih =>
    cases hfa : f a with
    | true =>
      simp [firstIdxWhere, hfa] at h
      subst h
      exact ⟨a, rfl, hfa, fun j b hj => by omega⟩
    | false =>
      simp [firstIdxWhere, hfa] at h
      obtain ⟨i1, hi1, rfl⟩ := h
      obtain ⟨b, hb, hfb, hmin⟩ := ih i1 hi1
      refine ⟨b, by simpa using hb, hfb, ?_⟩
      intro j c hj hc
      match j with
      | 0 =>
        simp at hc
        subst hc
        exact hfa
      | j + 1 =>
        exact hmin j c (by omega) (by simpa using hc)

theorem firstIdxWhere_append_of_none {α : Type} (f : α → Bool) (l1 l2 : List α)
    (h : firstIdxWhere f l1 = none) :
    firstIdxWhere f (l1 ++ l2)
      = (firstIdxWhere f l2).map (fun i => i + l1.length) := by
  induction l1 with
  | nil => cases hfl : firstIdxWhere f l2 <;> simp [hfl]
  | cons a l ih =>
    cases hfa : f a with
    | true => simp [firstIdxWhere, hfa] at h
    | false =>
      simp only [firstIdxWhere, hfa] at h
      have h2 : firstIdxWhere f l = none := by
        cases hfl : firstIdxWhere f l <;> simp [hfl] at h ⊢
      rw [List.cons_append]
      have hstep : firstIdxWhere f (a :: (l ++ l2))
          = (firstIdxWhere f (l ++ l2)).map (· + 1) := by
        simp [firstIdxWhere, hfa]
      rw [hstep, ih h2]
      cases hfl : firstIdxWhere f l2 <;> simp [hfl, List.length_cons] <;> omega

theorem equals_exact_self (atol : ℚ) (p : Pt) : equals_exact atol p p = true := by
  simp only [equals_exact, sub_self, decide_eq_true_eq]
  have : (0 : ℚ) ^ 2 + (0 : ℚ) ^ 2 = 0 := by norm_num
  rw [this]
  exact sq_nonneg atol

theorem getD_of_get? {α : Type} (l : List α) (i : ℕ) (a d : α)
    (h : l.get? i = some a) : l.getD i d = a := by
  rw [List.getD_eq_getElem?_getD]
  rw [← List.get?_eq_getElem?, h]
  rfl

/-! ### Lemmas about the tiling loop -/

theorem tile_aux {γ : Type} (diff : γ → γ → γ) :
    ∀ (rest pre : List (String × γ)),
      ((rest.enumFrom pre.length).map (fun e =>
        (e.2.1, ((((pre ++ rest).take e.1).map Prod.snd).reverse).foldl diff e.2.2)))
      = tileInOrder diff ((pre.map Prod.snd).reverse) rest := by
  intro rest
  induction rest with
  | nil => intro pre; simp [tileInOrder]
  | cons hd tl ih =>
    intro pre
    obtain ⟨name, p⟩ := hd
    rw [List.enumFrom_cons, List.map_cons, tileInOrder]
    refine congrArg₂ _ ?_ ?_
    · simp [List.take_left]
    · have htail := ih (pre ++ [(name, p)])
      simp only [List.length_append, List.length_cons, List.length_nil,
        List.map_append, List.map_cons, List.map_nil, List.reverse_append,
        List.reverse_cons, List.reverse_nil, List.nil_append, List.cons_append,
        List.append_assoc] at htail
      simpa using htail

theorem tilePolygons_eq {γ : Type} (diff : γ → γ → γ)
    (ps : List (String × γ)) :
    tilePolygons diff ps = (tileInOrder diff [] ps).reverse := by
  unfold tilePolygons
  rw [List.map_reverse]
  refine congrArg _ ?_
  have h := tile_aux diff ps []
  simpa using h

theorem tileInOrder_length {γ : Type} (diff : γ → γ → γ) :
    ∀ (ps : List (String × γ)) (acc : List γ),
      (tileInOrder diff acc ps).length = ps.length := by
  intro ps
  induction ps with
  | nil => intro acc; rfl
  | cons hd tl ih =>
    intro acc
    obtain ⟨name, p⟩ := hd
    simp [tileInOrder, ih]

theorem tilePolygons_length {γ : Type} (diff : γ → γ → γ)
    (ps : List (String × γ)) :
    (tilePolygons diff ps).length = ps.length := by
  rw [tilePolygons_eq]
  simp [tileInOrder_length]

theorem tileInOrder_get? {γ : Type} (diff : γ → γ → γ) :
    ∀ (rest : List (String × γ)) (acc : List γ) (i : ℕ) (e : String × γ),
      rest.get? i = some e →
      (tileInOrder diff acc rest).get? i
        = some (e.1, (((rest.take i).map Prod.snd).reverse ++ acc).foldl diff e.2) := by
  intro rest
  induction rest with
  | nil => intro acc i e he; simp at he
  | cons hd tl ih =>
    intro acc i e he
    obtain ⟨name, p⟩ := hd
    cases i with
    | zero =>
      simp at he
      subst he
      simp [tileInOrder]
    | succ i =>
      simp only [List.get?_cons_succ] at he
      simp only [tileInOrder, List.get?_cons_succ]
      rw [ih (p :: acc) i e he]
      simp [List.append_assoc]

theorem tile_rev_get? {γ : Type} (diff : γ → γ → γ) (ps : List (String × γ))
    (i : ℕ) (e : String × γ) (he : ps.get? i = some e) :
    ((tilePolygons diff ps).reverse).get? i
      = some (e.1, (((ps.take i).map Prod.snd).reverse).foldl diff e.2) := by
  rw [tilePolygons_eq, List.reverse_reverse]
  have h := tileInOrder_get? diff ps [] i e he
  simpa using h

/-! ### Set-level facts about the tiling -/

theorem mem_unionList {α : Type} [DecidableEq α] (l : List (Finset α)) (a : α) :
    a ∈ unionList l ↔ ∃ s ∈ l, a ∈ s := by
  induction l with
  | nil => simp [unionList]
  | cons s l ih =>
    have hcons : unionList (s :: l) = s ∪ unionList l := rfl
    rw [hcons]
    simp [Finset.mem_union, ih]

theorem foldl_sdiff {α : Type} [DecidableEq α] :
    ∀ (l : List (Finset α)) (p : Finset α),
      l.foldl (· \ ·) p = p \ unionList l := by
  intro l
  induction l with
  | nil => intro p; simp [unionList]
  | cons s l ih =>
    intro p
    rw [List.foldl_cons, ih]
    ext x
    simp only [Finset.mem_sdiff, mem_unionList, List.mem_cons, unionList,
      List.foldr_cons, Finset.mem_union]
    constructor
    · rintro ⟨⟨hp, hs⟩, hu⟩
      refine ⟨hp, ?_⟩
      rintro (h | h)
      · exact hs h
      · exact hu h
    · rintro ⟨hp, hu⟩
      exact ⟨⟨hp, fun h => hu (Or.inl h)⟩, fun h => hu (Or.inr h)⟩

theorem unionList_reverse {α : Type} [DecidableEq α] (l : List (Finset α)) :
    unionList l.reverse = unionList l := by
  ext x
  simp [mem_unionList]

theorem tileInOrder_entry_inter_acc {α : Type} [DecidableEq α] :
    ∀ (ps : List (String × Finset α)) (acc : List (Finset α)) (s : Finset α),
      s ∈ (tileInOrder (· \ ·) acc ps).map Prod.snd →
      s ∩ unionList acc = ∅ := by
  intro ps
  induction ps with
  | nil => intro acc s hs; simp [tileInOrder] at hs
  | cons hd tl ih =>
    intro acc s hs
    obtain ⟨name, p⟩ := hd
    simp only [tileInOrder, List.map_cons, List.mem_cons] at hs
    rcases hs with rfl | hs
    · rw [foldl_sdiff]
      ext x
      simp only [Finset.mem_inter, Finset.mem_sdiff, Finset.not_mem_empty,
        iff_false, not_and]
      tauto
    · have h := ih (p :: acc) s hs
      ext x
      have hx := Finset.ext_iff.mp h x
      simp only [Finset.mem_inter, Finset.not_mem_empty, iff_false,
        mem_unionList, unionList, List.foldr_cons, Finset.mem_union] at hx ⊢
      intro hmem
      obtain ⟨hxs, hxu⟩ := hmem
      exact hx ⟨hxs, Or.inr hxu⟩

theorem tileInOrder_pairwise {α : Type} [DecidableEq α] :
    ∀ (ps : List (String × Finset α)) (acc : List (Finset α)),
      ((tileInOrder (· \ ·) acc ps).map Prod.snd).Pairwise
        (fun s u => s ∩ u = ∅) := by
  intro ps
  induction ps with
  | nil => intro acc; simp [tileInOrder]
  | cons hd tl ih =>
    intro acc
    obtain ⟨name, p⟩ := hd
    simp only [tileInOrder, List.map_cons]
    refine List.Pairwise.cons ?_ (ih (p :: acc))
    intro u hu
    have h := tileInOrder_entry_inter_acc tl (p :: acc) u hu
    rw [foldl_sdiff]
    ext x
    have hx := Finset.ext_iff.mp h x
    simp only [Finset.mem_inter, Finset.not_mem_empty, iff_false,
      unionList, List.foldr_cons, Finset.mem_union, Finset.mem_sdiff] at hx ⊢
    intro hmem
    obtain ⟨⟨hxp, hxa⟩, hxu⟩ := hmem
    exact hx ⟨hxu, Or.inl hxp⟩

theorem tileInOrder_union {α : Type} [DecidableEq α] :
    ∀ (ps : List (String × Finset α)) (acc : List (Finset α)),
      unionList ((tileInOrder (· \ ·) acc ps).map Prod.snd)
        = unionList (ps.map Prod.snd) \ unionList acc := by
  intro ps
  induction ps with
  | nil => intro acc; simp [tileInOrder, unionList]
  | cons hd tl ih =>
    intro acc
    obtain ⟨name, p⟩ := hd
    simp only [tileInOrder, List.map_cons]
    have hcons : unionList ((acc.foldl (· \ ·) p) ::
        (tileInOrder (· \ ·) (p :: acc) tl).map Prod.snd)
        = (acc.foldl (· \ ·) p)
          ∪ unionList ((tileInOrder (· \ ·) (p :: acc) tl).map Prod.snd) := rfl
    rw [hcons, ih (p :: acc), foldl_sdiff]
    ext x
    simp only [Finset.mem_union, Finset.mem_sdiff, mem_unionList, unionList,
      List.foldr_cons, List.map_cons, List.mem_cons]
    constructor
    · rintro (⟨hp, hu⟩ | ⟨hu, hnu⟩)
      · exact ⟨Or.inl hp, hu⟩
      · exact ⟨Or.inr hu, fun h => hnu (Or.inr h)⟩
    · rintro ⟨hp | hu, hnacc⟩
      · exact Or.inl ⟨hp, hnacc⟩
      · by_cases hxp : x ∈ p
        · exact Or.inl ⟨hxp, hnacc⟩
        · refine Or.inr ⟨hu, ?_⟩
          rintro (h | h)
          · exact hxp h
          · exact hnacc h

/-- C1 (amended): the tiling loop subtracts from each region the union of
all earlier-indexed polygons, so earlier entries keep all contested area.
Entry i of the tiled mapping read in original input order (the tiled dict
holds entries in reversed iteration order, so its reverse is indexed like
the input) is the input polygon minus the union of the polygons declared
before it; in particular, for R0 declared first and R1 second with R1
inside R0, R0 resolves to R0 unchanged and R1 resolves to R1 minus R0,
which is empty. Polygons are modelled as their finite sets of sample
points, on which the shapely difference is set difference. -/
theorem tile_resolved_layer_subtracts_earlier {α : Type} [DecidableEq α]
    (ps : List (String × Finset α)) (i : ℕ) (e : String × Finset α)
    (he : ps.get? i = some e) :
    ((tilePolygons (· \ ·) ps).reverse).get? i
      = some (e.1, e.2 \ unionList ((ps.take i).map Prod.snd)) := by
  rw [tile_rev_get? (· \ ·) ps i e he, foldl_sdiff, unionList_reverse]

/-- C1 witness: in the two-region scenario R0 = {0,1,2,3} then R1 = {1},
the resolved layer of the second region is its polygon minus the earlier
region. -/
theorem tile_resolved_layer_subtracts_earlier_witness :
    ((tilePolygons (· \ ·)
        [("r0", ({0, 1, 2, 3} : Finset ℕ)), ("r1", {1})]).reverse).get? 1
      = some ("r1", ({1} : Finset ℕ) \ unionList
          (([("r0", ({0, 1, 2, 3} : Finset ℕ)), ("r1", {1})].take 1).map
            Prod.snd)) :=
  tile_resolved_layer_subtracts_earlier
    [("r0", ({0, 1, 2, 3} : Finset ℕ)), ("r1", {1})] 1 ("r1", {1}) (by decide)

/-- C1 counterexample: with R0 = {0,1,2,3} declared first and R1 = {1}
(fully inside R0) declared second, the resolved layer for R0 is R0
unchanged — not R0 minus R1 as the claim states — and the resolved layer
for R1 is empty, not R1 unchanged. -/
theorem tile_last_wins_refuted :
    ((tilePolygons (· \ ·)
        [("r0", ({0, 1, 2, 3} : Finset ℕ)), ("r1", {1})]).reverse).get? 0
      = some ("r0", {0, 1, 2, 3}) ∧
    ¬ (((tilePolygons (· \ ·)
        [("r0", ({0, 1, 2, 3} : Finset ℕ)), ("r1", {1})]).reverse).get? 0
      = some ("r0", ({0, 1, 2, 3} : Finset ℕ) \ {1})) ∧
    ((tilePolygons (· \ ·)
        [("r0", ({0, 1, 2, 3} : Finset ℕ)), ("r1", {1})]).reverse).get? 1
      = some ("r1", ∅) := by
  refine ⟨by decide, by decide, by decide⟩

/-- C6: the resolved layers produced by the tiling phase are pairwise
disjoint (hence disjoint across distinct names of the input mapping), and
their union equals the union of all input polygons. Polygons are modelled
as their finite sets of sample points, on which the shapely difference is
set difference. -/
theorem tile_disjoint_and_covers {α : Type} [DecidableEq α]
    (ps : List (String × Finset α)) :
    ((tilePolygons (· \ ·) ps).map Prod.snd).Pairwise
      (fun s u => s ∩ u = ∅) ∧
    unionList ((tilePolygons (· \ ·) ps).map Prod.snd)
      = unionList (ps.map Prod.snd) := by
  constructor
  · rw [tilePolygons_eq, List.map_reverse, List.pairwise_reverse]
    exact (tileInOrder_pairwise ps []).imp (fun h => by rwa [Finset.inter_comm])
  · rw [tilePolygons_eq, List.map_reverse, unionList_reverse,
      tileInOrder_union ps []]
    simp [unionList]

/-! ### Registry point matching -/

/-- C5: when some already-registered point matches p within the tolerance,
add_get_point returns the gmsh handle of the earliest-registered matching
point, ignores the supplied resolution hint, and leaves the whole tracker
(hence the point count) unchanged; and in general a second call with the
same coordinates returns the same handle as the first and leaves the
state of the first call unchanged, so calling the operation twice with
identical coordinates yields the same handle twice without growing the
registry. -/
theorem add_get_point_match_and_idempotent (t : MeshTracker) (p : Pt)
    (res res1 : Option ℚ)
    (hlen : t.gmsh_points.length = t.shapely_points.length) :
    ((∃ q ∈ t.shapely_points, equals_exact t.atol p q = true) →
      ∃ i q, t.shapely_points.get? i = some q ∧
        equals_exact t.atol p q = true ∧
        (∀ j q1, j < i → t.shapely_points.get? j = some q1 →
          equals_exact t.atol p q1 = false) ∧
        t.add_get_point p res = (t.gmsh_points.getD i 0, t) ∧
        t.add_get_point p res1 = t.add_get_point p res) ∧
    (t.add_get_point p res).2.add_get_point p res1
      = ((t.add_get_point p res).1, (t.add_get_point p res).2) := by
  constructor
  · intro hmatch
    have hne : t.get_point_index p ≠ none := by
      rw [MeshTracker.get_point_index, Ne, firstIdxWhere_eq_none_iff]
      intro hall
      obtain ⟨q, hq, hqe⟩ := hmatch
      have hf := hall q hq
      rw [hf] at hqe
      exact Bool.false_ne_true hqe
    obtain ⟨i, hidx⟩ := Option.ne_none_iff_exists'.mp hne
    have hidx1 : firstIdxWhere
        (fun shapely_point => equals_exact t.atol p shapely_point)
        t.shapely_points = some i := hidx
    obtain ⟨q, hget, hfq, hmin⟩ := firstIdxWhere_eq_some _ _ i hidx1
    refine ⟨i, q, hget, hfq, hmin, ?_, ?_⟩
    · simp [MeshTracker.add_get_point, hidx]
    · simp [MeshTracker.add_get_point, hidx]
  · cases hidx : t.get_point_index p with
    | some i => simp [MeshTracker.add_get_point, hidx]
    | none =>
      have hidx1 : firstIdxWhere
          (fun shapely_point => equals_exact t.atol p shapely_point)
          t.shapely_points = none := hidx
      have happend : firstIdxWhere
          (fun shapely_point => equals_exact t.atol p shapely_point)
          (t.shapely_points ++ [p]) = some t.shapely_points.length := by
        rw [firstIdxWhere_append_of_none _ _ _ hidx]
        simp [firstIdxWhere, equals_exact_self]
      set t1 : ℕ × MeshTracker := t.add_get_point p res with ht1
      have h1 : t1.1 = t.model.points.length + 1 := by
        rw [ht1]
        simp [MeshTracker.add_get_point, hidx, GmshModel.add_point]
      have h3 : t1.2.gmsh_points = t.gmsh_points ++ [t.model.points.length + 1] := by
        rw [ht1]
        simp [MeshTracker.add_get_point, hidx, GmshModel.add_point]
      have h2 : t1.2.get_point_index p = some t.shapely_points.length := by
        rw [ht1]
        simp only [MeshTracker.add_get_point, MeshTracker.get_point_index,
          hidx1, GmshModel.add_point]
        exact happend
      have h4 : t1.2.gmsh_points.getD t.shapely_points.length 0
          = t.model.points.length + 1 := by
        rw [h3]
        apply getD_of_get?
        rw [← hlen]
        exact List.get?_concat_length _ _
      rw [MeshTracker.add_get_point.eq_def, h2]
      simp [h1]
      rw [← List.getD_eq_getElem?_getD]
      exact h4

/-- C3: evaluation at the failing input. After registering the segment
((0,0),(1,0)), querying the reverse ((1,0),(0,0)) does not find the stored
segment — the order-sensitive equals_exact comparison fails on reversed
endpoints, so the reversed-orientation branch is unreachable — the query
reports the no-match pair (none, truthy), and re-adding registers a second
segment with the fresh handle 2, leaving two entries in the registry
where the claim requires one shared entry with orientation false. -/
theorem reversed_segment_query_creates_duplicate :
    (((MeshTracker.init (1/1000)).add_get_xy_line ⟨0,0⟩ ⟨1,0⟩).toOption.map
        (fun r =>
          (r.2.get_xy_line_index_and_orientation ⟨1,0⟩ ⟨0,0⟩,
           (r.2.add_get_xy_line ⟨1,0⟩ ⟨0,0⟩).toOption.map (fun s =>
             (s.1, s.2.shapely_xy_lines.length, s.2.gmsh_xy_lines)))))
      = some (Except.ok (none, true), some ((2, true), 2, [1, 2])) := by
  norm_num [MeshTracker.init, MeshTracker.add_get_xy_line,
    MeshTracker.get_xy_line_index_and_orientation, MeshTracker.add_get_point,
    MeshTracker.get_point_index, GmshModel.add_point, GmshModel.add_line,
    firstIdxWhere, lineEqualsExact, equals_exact, Except.toOption]

/-- C5 witness: at the one-point tracker with a query point within
tolerance of the registered point (0,0), the earliest match is index 0,
the call returns handle 1 whatever resolution hint is supplied, and the
tracker is left unchanged. -/
theorem add_get_point_match_and_idempotent_witness :
    ∃ i q, onePointTracker.shapely_points.get? i = some q ∧
      equals_exact onePointTracker.atol nearbyPoint q = true ∧
      (∀ j q1, j < i → onePointTracker.shapely_points.get? j = some q1 →
        equals_exact onePointTracker.atol nearbyPoint q1 = false) ∧
      onePointTracker.add_get_point nearbyPoint (some (1/2))
        = (onePointTracker.gmsh_points.getD i 0, onePointTracker) ∧
      onePointTracker.add_get_point nearbyPoint none
        = onePointTracker.add_get_point nearbyPoint (some (1/2)) :=
  (add_get_point_match_and_idempotent onePointTracker nearbyPoint
      (some (1/2)) none rfl).1
    ⟨⟨0, 0⟩, by simp [onePointTracker],
      by norm_num [equals_exact, onePointTracker, nearbyPoint]⟩

/-! ### Registry segment registration -/

theorem add_get_point_keeps_lines (t : MeshTracker) (p : Pt) (res : Option ℚ) :
    (t.add_get_point p res).2.shapely_xy_lines = t.shapely_xy_lines ∧
    (t.add_get_point p res).2.gmsh_xy_lines = t.gmsh_xy_lines ∧
    (t.add_get_point p res).2.model.lines = t.model.lines ∧
    (t.add_get_point p res).2.atol = t.atol := by
  cases hidx : t.get_point_index p with
  | some index => simp [MeshTracker.add_get_point, hidx]
  | none => simp [MeshTracker.add_get_point, hidx, GmshModel.add_point]

/-- C8: for a segment not yet in the registry (no stored line matches the
query within the tolerance), add_get_xy_line first registers both
endpoints via add_get_point, stores the shapely segment in the query
order, appends a fresh gmsh line handle (one absent from the registry),
and returns it with orientation true. -/
theorem add_get_xy_line_fresh (t : MeshTracker) (p1 p2 : Pt)
    (hwf : t.WF)
    (hnew : firstIdxWhere
      (fun shapely_line => lineEqualsExact t.atol (p1, p2) shapely_line)
      t.shapely_xy_lines = none) :
    ∃ gl u,
      t.add_get_xy_line p1 p2 = Except.ok ((gl, true), u) ∧
      u.shapely_xy_lines = t.shapely_xy_lines ++ [(p1, p2)] ∧
      u.gmsh_xy_lines = t.gmsh_xy_lines ++ [gl] ∧
      gl ∉ t.gmsh_xy_lines ∧
      u.shapely_points
        = ((t.add_get_point p1 none).2.add_get_point p2 none).2.shapely_points ∧
      u.gmsh_points
        = ((t.add_get_point p1 none).2.add_get_point p2 none).2.gmsh_points := by
  have hget : t.get_xy_line_index_and_orientation p1 p2
      = Except.ok (none, true) := by
    simp [MeshTracker.get_xy_line_index_and_orientation, hnew]
  have k1 := add_get_point_keeps_lines t p1 none
  have k2 := add_get_point_keeps_lines (t.add_get_point p1 none).2 p2 none
  refine ⟨((t.add_get_point p1 none).2.add_get_point p2 none).2.model.lines.length + 1,
    { ((t.add_get_point p1 none).2.add_get_point p2 none).2 with
        model := (((t.add_get_point p1 none).2.add_get_point p2 none).2.model.add_line
          (t.add_get_point p1 none).1
          ((t.add_get_point p1 none).2.add_get_point p2 none).1).2
        shapely_xy_lines :=
          ((t.add_get_point p1 none).2.add_get_point p2 none).2.shapely_xy_lines
            ++ [(p1, p2)]
        gmsh_xy_lines :=
          ((t.add_get_point p1 none).2.add_get_point p2 none).2.gmsh_xy_lines
            ++ [((t.add_get_point p1 none).2.add_get_point p2 none).2.model.lines.length + 1] },
    ?_, ?_, ?_, ?_, ?_, ?_⟩
  · simp only [MeshTracker.add_get_xy_line, hget, GmshModel.add_line]
  · simp only [MeshTracker.add_get_xy_line, hget, GmshModel.add_line]
    rw [k2.1, k1.1]
  · simp only [MeshTracker.add_get_xy_line, hget, GmshModel.add_line]
    rw [k2.2.1, k1.2.1, k2.2.2.1, k1.2.2.1]
  · intro hmem
    have hb := hwf.2.2.2 _ hmem
    rw [k2.2.2.1, k1.2.2.1] at hb
    omega
  · simp only [MeshTracker.add_get_xy_line, hget, GmshModel.add_line]
  · simp only [MeshTracker.add_get_xy_line, hget, GmshModel.add_line]

/-- C8 witness: registering the segment ((0,0),(1,0)) on a fresh tracker
creates the fresh line and returns orientation true. -/
theorem add_get_xy_line_fresh_witness :
    ∃ gl u,
      (MeshTracker.init (1/1000)).add_get_xy_line ⟨0, 0⟩ ⟨1, 0⟩
        = Except.ok ((gl, true), u) ∧
      u.shapely_xy_lines
        = (MeshTracker.init (1/1000)).shapely_xy_lines ++ [(⟨0, 0⟩, ⟨1, 0⟩)] ∧
      u.gmsh_xy_lines = (MeshTracker.init (1/1000)).gmsh_xy_lines ++ [gl] ∧
      gl ∉ (MeshTracker.init (1/1000)).gmsh_xy_lines ∧
      u.shapely_points
        = (((MeshTracker.init (1/1000)).add_get_point ⟨0, 0⟩ none).2.add_get_point
            ⟨1, 0⟩ none).2.shapely_points ∧
      u.gmsh_points
        = (((MeshTracker.init (1/1000)).add_get_point ⟨0, 0⟩ none).2.add_get_point
            ⟨1, 0⟩ none).2.gmsh_points :=
  add_get_xy_line_fresh (MeshTracker.init (1/1000)) ⟨0, 0⟩ ⟨1, 0⟩
    (by refine ⟨rfl, rfl, ?_, ?_⟩ <;> intro h hmem <;>
      simp [MeshTracker.init] at hmem) rfl

/-! ### Registry growth invariants -/

theorem extends_refl (t : MeshTracker) : t.Extends t :=
  ⟨⟨[], by simp⟩, ⟨[], by simp⟩, ⟨[], by simp⟩, ⟨[], by simp⟩,
    le_refl _, le_refl _, rfl⟩

theorem extends_trans {t u v : MeshTracker} (h1 : t.Extends u)
    (h2 : u.Extends v) : t.Extends v := by
  obtain ⟨⟨a1, ha1⟩, ⟨a2, ha2⟩, ⟨a3, ha3⟩, ⟨a4, ha4⟩, hp, hl, hat⟩ := h1
  obtain ⟨⟨b1, hb1⟩, ⟨b2, hb2⟩, ⟨b3, hb3⟩, ⟨b4, hb4⟩, hp2, hl2, hat2⟩ := h2
  refine ⟨⟨a1 ++ b1, ?_⟩, ⟨a2 ++ b2, ?_⟩, ⟨a3 ++ b3, ?_⟩, ⟨a4 ++ b4, ?_⟩,
    le_trans hp hp2, le_trans hl hl2, hat2.trans hat⟩
  · rw [hb1, ha1, List.append_assoc]
  · rw [hb2, ha2, List.append_assoc]
  · rw [hb3, ha3, List.append_assoc]
  · rw [hb4, ha4, List.append_assoc]

theorem add_get_point_extends_wf (t : MeshTracker) (p : Pt) (res : Option ℚ)
    (hwf : t.WF) :
    t.Extends (t.add_get_point p res).2 ∧ (t.add_get_point p res).2.WF := by
  obtain ⟨hw1, hw2, hw3, hw4⟩ := hwf
  cases hidx : t.get_point_index p with
  | some index =>
    simp only [MeshTracker.add_get_point, hidx]
    exact ⟨extends_refl t, hw1, hw2, hw3, hw4⟩
  | none =>
    simp only [MeshTracker.add_get_point, hidx, GmshModel.add_point]
    constructor
    · exact ⟨⟨[p], rfl⟩, ⟨[t.model.points.length + 1], rfl⟩, ⟨[], by simp⟩,
        ⟨[], by simp⟩, by simp, by simp, rfl⟩
    · refine ⟨by simp [hw1], by simp [hw2], ?_, ?_⟩
      · intro h hmem
        simp only [List.mem_append, List.mem_singleton] at hmem
        simp only [List.length_append, List.length_singleton]
        rcases hmem with hmem | hmem
        · have hb := hw3 h hmem
          omega
        · omega
      · intro h hmem
        exact hw4 h hmem

theorem add_get_xy_line_extends_wf (t : MeshTracker) (p1 p2 : Pt)
    (r : ℕ × Bool) (u : MeshTracker) (hwf : t.WF)
    (h : t.add_get_xy_line p1 p2 = Except.ok (r, u)) :
    t.Extends u ∧ u.WF := by
  cases hget : t.get_xy_line_index_and_orientation p1 p2 with
  | error e =>
    rw [MeshTracker.add_get_xy_line, hget] at h
    exact absurd h (by simp)
  | ok ro =>
    obtain ⟨oi, orient⟩ := ro
    cases oi with
    | some index =>
      rw [MeshTracker.add_get_xy_line, hget] at h
      simp only [Except.ok.injEq, Prod.mk.injEq] at h
      obtain ⟨-, hu⟩ := h
      subst hu
      exact ⟨extends_refl t, hwf⟩
    | none =>
      have e1 := add_get_point_extends_wf t p1 none hwf
      have e2 := add_get_point_extends_wf (t.add_get_point p1 none).2 p2 none e1.2
      obtain ⟨hw1, hw2, hw3, hw4⟩ := e2.2
      rw [MeshTracker.add_get_xy_line, hget] at h
      simp only [GmshModel.add_line, Except.ok.injEq, Prod.mk.injEq] at h
      obtain ⟨-, hu⟩ := h
      subst hu
      constructor
      · refine extends_trans (extends_trans e1.1 e2.1) ?_
        exact ⟨⟨[], by simp⟩, ⟨[], by simp⟩, ⟨[(p1, p2)], rfl⟩,
          ⟨[((t.add_get_point p1 none).2.add_get_point p2 none).2.model.lines.length + 1],
            rfl⟩, by simp, by simp, rfl⟩
      · refine ⟨by simpa using hw1, by simp [hw2], ?_, ?_⟩
        · intro h hmem
          exact hw3 h hmem
        · intro h hmem
          simp only [List.mem_append, List.mem_singleton] at hmem
          simp only [List.length_append, List.length_singleton]
          rcases hmem with hmem | hmem
          · have hb := hw4 h hmem
            omega
          · omega

theorem loopEdges_extends_wf :
    ∀ (pairs : List (Pt × Pt)) (t : MeshTracker) (edges : List ℤ)
      (u : MeshTracker), t.WF → loopEdges t pairs = Except.ok (edges, u) →
      t.Extends u ∧ u.WF := by
  intro pairs
  induction pairs with
  | nil =>
    intro t edges u hwf h
    simp only [loopEdges, Except.ok.injEq, Prod.mk.injEq] at h
    obtain ⟨-, hu⟩ := h
    subst hu
    exact ⟨extends_refl t, hwf⟩
  | cons pr rest ih =>
    intro t edges u hwf h
    obtain ⟨v1, v2⟩ := pr
    rw [loopEdges] at h
    cases hline : t.add_get_xy_line v1 v2 with
    | error e => rw [hline] at h; exact absurd h (by simp)
    | ok r1 =>
      obtain ⟨⟨gl, orient⟩, t1⟩ := r1
      rw [hline] at h
      dsimp only at h
      have e1 := add_get_xy_line_extends_wf t v1 v2 (gl, orient) t1 hwf hline
      cases hrest : loopEdges t1 rest with
      | error e => rw [hrest] at h; exact absurd h (by simp)
      | ok r2 =>
        obtain ⟨edges2, t2⟩ := r2
        rw [hrest] at h
        simp only [Except.ok.injEq, Prod.mk.injEq] at h
        obtain ⟨-, hu⟩ := h
        subst hu
        have e2 := ih t1 edges2 t2 e1.2 hrest
        exact ⟨extends_trans e1.1 e2.1, e2.2⟩

theorem xy_channel_loop_extends_wf (t : MeshTracker) (vertices : List Pt)
    (lh : ℕ) (u : MeshTracker) (hwf : t.WF)
    (h : t.xy_channel_loop_from_vertices vertices = Except.ok (lh, u)) :
    t.Extends u ∧ u.WF := by
  rw [MeshTracker.xy_channel_loop_from_vertices] at h
  cases hedges : loopEdges t (consecPairs vertices) with
  | error e => rw [hedges] at h; exact absurd h (by simp)
  | ok r =>
    obtain ⟨edges, t1⟩ := r
    rw [hedges] at h
    dsimp only at h
    simp only [GmshModel.add_curve_loop, Except.ok.injEq, Prod.mk.injEq] at h
    obtain ⟨-, hu⟩ := h
    subst hu
    have e1 := loopEdges_extends_wf (consecPairs vertices) t edges t1 hwf hedges
    obtain ⟨hw1, hw2, hw3, hw4⟩ := e1.2
    constructor
    · refine extends_trans e1.1 ?_
      exact ⟨⟨[], by simp⟩, ⟨[], by simp⟩, ⟨[], by simp⟩, ⟨[], by simp⟩,
        by simp, by simp, rfl⟩
    · exact ⟨hw1, hw2, fun h hm => hw3 h hm, fun h hm => hw4 h hm⟩

theorem addRingPoints_extends_wf :
    ∀ (ring : List Pt) (t : MeshTracker) (res : Option ℚ), t.WF →
      t.Extends (t.addRingPoints ring res) ∧ (t.addRingPoints ring res).WF := by
  intro ring
  induction ring with
  | nil =>
    intro t res hwf
    exact ⟨extends_refl t, hwf⟩
  | cons v rest ih =>
    intro t res hwf
    have e1 := add_get_point_extends_wf t v res hwf
    have e2 := ih (t.add_get_point v res).2 res e1.2
    rw [MeshTracker.addRingPoints] at e2 ⊢
    simp only [List.foldl_cons]
    exact ⟨extends_trans e1.1 e2.1, e2.2⟩

theorem addHoleLoops_extends_wf :
    ∀ (holes : List (List Pt)) (t : MeshTracker) (res : Option ℚ)
      (hls : List ℕ) (u : MeshTracker), t.WF →
      t.addHoleLoops holes res = Except.ok (hls, u) →
      t.Extends u ∧ u.WF := by
  intro holes
  induction holes with
  | nil =>
    intro t res hls u hwf h
    simp only [MeshTracker.addHoleLoops, Except.ok.injEq, Prod.mk.injEq] at h
    obtain ⟨-, hu⟩ := h
    subst hu
    exact ⟨extends_refl t, hwf⟩
  | cons ring rest ih =>
    intro t res hls u hwf h
    rw [MeshTracker.addHoleLoops] at h
    have e1 := addRingPoints_extends_wf ring t res hwf
    cases hloop : (t.addRingPoints ring res).xy_channel_loop_from_vertices ring with
    | error e => rw [hloop] at h; exact absurd h (by simp)
    | ok r1 =>
      obtain ⟨lh, t2⟩ := r1
      rw [hloop] at h
      dsimp only at h
      have e2 := xy_channel_loop_extends_wf (t.addRingPoints ring res) ring
        lh t2 e1.2 hloop
      cases hrest : t2.addHoleLoops rest res with
      | error e => rw [hrest] at h; exact absurd h (by simp)
      | ok r2 =>
        obtain ⟨hls2, t3⟩ := r2
        rw [hrest] at h
        simp only [Except.ok.injEq, Prod.mk.injEq] at h
        obtain ⟨-, hu⟩ := h
        subst hu
        have e3 := ih t2 res hls2 t3 e2.2 hrest
        exact ⟨extends_trans e1.1 (extends_trans e2.1 e3.1), e3.2⟩

theorem add_xy_surface_extends_wf (t : MeshTracker) (g : Geometry)
    (res : Option ℚ) (s : ℕ) (u : MeshTracker) (hwf : t.WF)
    (h : t.add_xy_surface g res = Except.ok (s, u)) :
    t.Extends u ∧ u.WF := by
  cases g with
  | multipolygon parts =>
    rw [MeshTracker.add_xy_surface] at h
    exact absurd h (by simp)
  | polygon exterior interiors =>
    rw [MeshTracker.add_xy_surface] at h
    cases hholes : t.addHoleLoops interiors res with
    | error e => rw [hholes] at h; exact absurd h (by simp)
    | ok r1 =>
      obtain ⟨hole_loops, t1⟩ := r1
      rw [hholes] at h
      dsimp only at h
      have e1 := addHoleLoops_extends_wf interiors t res hole_loops t1 hwf hholes
      have e2 := addRingPoints_extends_wf exterior t1 res e1.2
      cases hloop : (t1.addRingPoints exterior res).xy_channel_loop_from_vertices
          exterior with
      | error e => rw [hloop] at h; exact absurd h (by simp)
      | ok r2 =>
        obtain ⟨channel_loop, t3⟩ := r2
        rw [hloop] at h
        dsimp only at h
        have e3 := xy_channel_loop_extends_wf (t1.addRingPoints exterior res)
          exterior channel_loop t3 e2.2 hloop
        simp only [GmshModel.add_plane_surface, Except.ok.injEq,
          Prod.mk.injEq] at h
        obtain ⟨-, hu⟩ := h
        subst hu
        obtain ⟨hw1, hw2, hw3, hw4⟩ := e3.2
        constructor
        · refine extends_trans e1.1 (extends_trans e2.1 (extends_trans e3.1 ?_))
          exact ⟨⟨[], by simp⟩, ⟨[], by simp⟩, ⟨[], by simp⟩, ⟨[], by simp⟩,
            by simp, by simp, rfl⟩
        · exact ⟨hw1, hw2, fun h hm => hw3 h hm, fun h hm => hw4 h hm⟩

/-- C9: every registry operation only grows the registry — existing
point and segment entries are preserved in place, the lists are only
appended to — and wellformedness (in particular the equal lengths of the
parallel shapely/gmsh lists) is preserved by add_get_point,
add_get_xy_line, loop construction, and surface construction. -/
theorem registry_only_grows (t : MeshTracker) (hwf : t.WF) :
    (∀ p res, t.Extends (t.add_get_point p res).2
      ∧ (t.add_get_point p res).2.WF) ∧
    (∀ p1 p2 r u, t.add_get_xy_line p1 p2 = Except.ok (r, u) →
      t.Extends u ∧ u.WF) ∧
    (∀ vertices lh u,
      t.xy_channel_loop_from_vertices vertices = Except.ok (lh, u) →
      t.Extends u ∧ u.WF) ∧
    (∀ g res s u, t.add_xy_surface g res = Except.ok (s, u) →
      t.Extends u ∧ u.WF) :=
  ⟨fun p res => add_get_point_extends_wf t p res hwf,
   fun p1 p2 r u h => add_get_xy_line_extends_wf t p1 p2 r u hwf h,
   fun vertices lh u h => xy_channel_loop_extends_wf t vertices lh u hwf h,
   fun g res s u h => add_xy_surface_extends_wf t g res s u hwf h⟩

/-- C9 witness: the four growth-and-wellformedness guarantees instantiated
at the empty tracker. -/
theorem registry_only_grows_witness :
    (∀ p res, (MeshTracker.init (1/1000)).Extends
        ((MeshTracker.init (1/1000)).add_get_point p res).2
      ∧ ((MeshTracker.init (1/1000)).add_get_point p res).2.WF) ∧
    (∀ p1 p2 r u,
      (MeshTracker.init (1/1000)).add_get_xy_line p1 p2 = Except.ok (r, u) →
      (MeshTracker.init (1/1000)).Extends u ∧ u.WF) ∧
    (∀ vertices lh u,
      (MeshTracker.init (1/1000)).xy_channel_loop_from_vertices vertices
        = Except.ok (lh, u) →
      (MeshTracker.init (1/1000)).Extends u ∧ u.WF) ∧
    (∀ g res s u,
      (MeshTracker.init (1/1000)).add_xy_surface g res = Except.ok (s, u) →
      (MeshTracker.init (1/1000)).Extends u ∧ u.WF) :=
  registry_only_grows (MeshTracker.init (1/1000))
    (by refine ⟨rfl, rfl, ?_, ?_⟩ <;> intro h hmem <;>
      simp [MeshTracker.init] at hmem)

/-! ### Loop degeneracy and empty layers -/

/-- C4 (amended): loop construction has no degeneracy check: on a fresh
tracker, a polyline of just two post-tolerance distinct vertices builds a
one-edge curve loop and returns its handle (the first loop, handle 1)
with no error raised. -/
theorem loop_without_degeneracy_check (atol : ℚ) (A B : Pt)
    (hdist : equals_exact atol B A = false) :
    Except.map Prod.fst
        ((MeshTracker.init atol).xy_channel_loop_from_vertices [A, B])
      = Except.ok 1 := by
  simp [MeshTracker.xy_channel_loop_from_vertices, consecPairs, loopEdges,
    MeshTracker.add_get_xy_line, MeshTracker.get_xy_line_index_and_orientation,
    MeshTracker.add_get_point, MeshTracker.get_point_index, firstIdxWhere,
    GmshModel.add_point, GmshModel.add_line, GmshModel.add_curve_loop,
    MeshTracker.init, hdist, Except.map]

/-- C4 witness: the no-check theorem instantiated at the default tolerance
with the two distinct vertices (0,0) and (0,1). -/
theorem loop_without_degeneracy_check_witness :
    Except.map Prod.fst
        ((MeshTracker.init (1/1000)).xy_channel_loop_from_vertices
          [⟨0, 0⟩, ⟨0, 1⟩])
      = Except.ok 1 :=
  loop_without_degeneracy_check (1/1000) ⟨0, 0⟩ ⟨0, 1⟩
    (by norm_num [equals_exact])

/-- C4 counterexample: a vertex sequence with only two distinct vertices,
(0,0) and (1,0), produces curve loop handle 1 on a fresh tracker at the
default tolerance — the build does not fail with any DegenerateLoopError
(no such error exists in the code). -/
theorem two_vertex_loop_succeeds :
    Except.map Prod.fst
        ((MeshTracker.init (1/1000)).xy_channel_loop_from_vertices
          [⟨0, 0⟩, ⟨1, 0⟩])
      = Except.ok 1 := by
  norm_num [MeshTracker.xy_channel_loop_from_vertices, consecPairs, loopEdges,
    MeshTracker.add_get_xy_line, MeshTracker.get_xy_line_index_and_orientation,
    MeshTracker.add_get_point, MeshTracker.get_point_index, firstIdxWhere,
    GmshModel.add_point, GmshModel.add_line, GmshModel.add_curve_loop,
    MeshTracker.init, equals_exact, lineEqualsExact, Except.map]

/-- C2 (amended): whenever the surface loop completes, it emits exactly one
labeled surface per tiled entry, in order — a region whose resolved layer
is empty is not skipped: it too gets a surface emitted for it. -/
theorem assemble_one_surface_per_entry :
    ∀ (entries : List (String × Geometry)) (t : MeshTracker)
      (resolutions : Option (List (String × ℚ))) (u : MeshTracker)
      (physicals : List (ℕ × String)),
      assembleSurfaces t entries resolutions = Except.ok (u, physicals) →
      physicals.map Prod.snd = entries.map Prod.fst := by
  intro entries
  induction entries with
  | nil =>
    intro t resolutions u physicals h
    simp only [assembleSurfaces, Except.ok.injEq, Prod.mk.injEq] at h
    obtain ⟨-, hp⟩ := h
    simp [← hp]
  | cons hd rest ih =>
    intro t resolutions u physicals h
    obtain ⟨name, g⟩ := hd
    rw [assembleSurfaces.eq_def] at h
    dsimp only at h
    cases resolutions with
    | none => exact absurd h (by simp)
    | some table =>
      dsimp only at h
      cases hsurf : t.add_xy_surface g (table.lookup name) with
      | error e => rw [hsurf] at h; exact absurd h (by simp)
      | ok r1 =>
        obtain ⟨s, t1⟩ := r1
        rw [hsurf] at h
        dsimp only at h
        cases hrest : assembleSurfaces t1 rest (some table) with
        | error e => rw [hrest] at h; exact absurd h (by simp)
        | ok r2 =>
          obtain ⟨t2, ps2⟩ := r2
          rw [hrest] at h
          simp only [Except.ok.injEq, Prod.mk.injEq] at h
          obtain ⟨-, hp⟩ := h
          rw [← hp]
          simp [ih t1 (some table) t2 ps2 hrest]

/-- C2 witness: assembling the single region r1 whose resolved layer is the
empty polygon completes and emits exactly one surface labeled r1. -/
theorem assemble_one_surface_per_entry_witness :
    ([((1 : ℕ), "r1")].map Prod.snd)
      = ([("r1", Geometry.polygon [] [])].map Prod.fst) :=
  assemble_one_surface_per_entry [("r1", Geometry.polygon [] [])]
    (MeshTracker.init (1/1000)) (some [])
    { MeshTracker.init (1/1000) with model := ⟨[], [], [[]], [(1, [])]⟩ }
    [(1, "r1")] rfl

/-- C2 counterexample: with R1 input identical to R0 (two identical unit
squares), the resolved layer of r1 is the empty polygon, yet the build
does not skip it: the surface loop emits a surface for r1 as well, so the
emitted surface labels are [r0, r1] — not zero surfaces for the eclipsed
region. -/
theorem empty_layer_not_skipped :
    (tilePolygons diffEclipse eclipseInput).reverse.get? 1
      = some ("r1", Geometry.polygon [] []) ∧
    (mesh_from_polygons diffEclipse eclipseInput (some [])
        (1/100) (1/10)).toOption.map
      (fun r => r.surface_physicals.map Prod.snd) = some ["r0", "r1"] := by
  constructor
  · rfl
  · norm_num [mesh_from_polygons, tilePolygons, assembleSurfaces,
      MeshTracker.add_xy_surface, MeshTracker.addHoleLoops,
      MeshTracker.addRingPoints, MeshTracker.xy_channel_loop_from_vertices,
      loopEdges, consecPairs, MeshTracker.add_get_xy_line,
      MeshTracker.get_xy_line_index_and_orientation, MeshTracker.add_get_point,
      MeshTracker.get_point_index, firstIdxWhere, lineEqualsExact, equals_exact,
      GmshModel.add_point, GmshModel.add_line, GmshModel.add_curve_loop,
      GmshModel.add_plane_surface, MeshTracker.init, diffEclipse, eclipseInput,
      unitSquareRing, Except.toOption, List.lookup, List.enum, List.enumFrom]

/-! ### Multi-part layers and the missing resolutions mapping -/

/-- C7 (amended): a multi-part resolved layer is not split into per-part
surfaces: the surface code accesses the interiors attribute, which a
MultiPolygon lacks, so any tiled entry that is a multi-polygon makes the
whole surface loop fail with an error instead of emitting one surface per
connected part. -/
theorem assemble_multipolygon_errors :
    ∀ (entries : List (String × Geometry)) (t : MeshTracker)
      (table : List (String × ℚ)),
      (∃ e ∈ entries, ∃ parts, e.2 = Geometry.multipolygon parts) →
      ∃ msg, assembleSurfaces t entries (some table) = Except.error msg := by
  intro entries
  induction entries with
  | nil =>
    intro t table hmulti
    simp at hmulti
  | cons hd rest ih =>
    intro t table hmulti
    obtain ⟨name, g⟩ := hd
    rw [assembleSurfaces.eq_def]
    dsimp only
    obtain ⟨e, he, parts, hparts⟩ := hmulti
    rcases List.mem_cons.mp he with rfl | hrest
    · dsimp only at hparts
      subst hparts
      rw [MeshTracker.add_xy_surface]
      exact ⟨_, rfl⟩
    · cases hsurf : t.add_xy_surface g (table.lookup name) with
      | error e2 => exact ⟨e2, rfl⟩
      | ok r1 =>
        obtain ⟨s, t1⟩ := r1
        dsimp only
        obtain ⟨msg, hmsg⟩ := ih t1 table ⟨e, hrest, parts, hparts⟩
        exact ⟨msg, by rw [hmsg]⟩

/-- C7 witness: a single multi-polygon entry makes the surface loop fail. -/
theorem assemble_multipolygon_errors_witness :
    ∃ msg, assembleSurfaces (MeshTracker.init (1/1000))
        [("r", Geometry.multipolygon [])] (some []) = Except.error msg :=
  assemble_multipolygon_errors [("r", Geometry.multipolygon [])]
    (MeshTracker.init (1/1000)) []
    ⟨("r", Geometry.multipolygon []), by simp, [], rfl⟩

/-- C7 counterexample: subtracting the middle strip from the long
rectangle splits it into a two-part multi-polygon; the build then fails
with an AttributeError when assembling that layer — it does not emit one
surface per connected part. -/
theorem multipolygon_layer_aborts_build :
    mesh_from_polygons diffSplit [("strip", midStrip), ("slab", longRect)]
        (some []) (1/100) (1/10)
      = Except.error
          "AttributeError: MultiPolygon object has no attribute interiors" := by
  norm_num [mesh_from_polygons, tilePolygons, assembleSurfaces,
    MeshTracker.add_xy_surface, MeshTracker.addHoleLoops,
    MeshTracker.addRingPoints, MeshTracker.xy_channel_loop_from_vertices,
    loopEdges, consecPairs, MeshTracker.add_get_xy_line,
    MeshTracker.get_xy_line_index_and_orientation, MeshTracker.add_get_point,
    MeshTracker.get_point_index, firstIdxWhere, lineEqualsExact, equals_exact,
    GmshModel.add_point, GmshModel.add_line, GmshModel.add_curve_loop,
    GmshModel.add_plane_surface, MeshTracker.init, diffSplit, midStrip,
    longRect, midStripRing, longRectRing, leftSquareRing, rightSquareRing,
    List.lookup, List.enum, List.enumFrom]

/-- C10: with the resolutions argument omitted (None), the surface loop
evaluates resolutions.keys() on its first iteration, which raises an
AttributeError — so the build fails for every non-empty polygon mapping,
whatever the polygons are and whatever the difference calls return. -/
theorem mesh_from_polygons_none_resolutions
    (diff : Geometry → Geometry → Geometry)
    (polygon_dict : List (String × Geometry))
    (dmin dmax : ℚ) (hne : polygon_dict ≠ []) :
    mesh_from_polygons diff polygon_dict none dmin dmax
      = Except.error "AttributeError: NoneType object has no attribute keys" := by
  have hlen : (tilePolygons diff polygon_dict).reverse.length
      = polygon_dict.length := by
    simp [tilePolygons_length]
  cases hrev : (tilePolygons diff polygon_dict).reverse with
  | nil =>
    exfalso
    rw [hrev] at hlen
    simp at hlen
    exact hne (List.eq_nil_of_length_eq_zero hlen.symm)
  | cons hd tl =>
    obtain ⟨name, g⟩ := hd
    rw [mesh_from_polygons.eq_def]
    dsimp only
    rw [hrev, assembleSurfaces.eq_def]

/-- C10 witness: a one-entry polygon mapping with resolutions omitted
fails with the AttributeError. -/
theorem mesh_from_polygons_none_resolutions_witness :
    mesh_from_polygons (fun a _ => a) [("core", Geometry.polygon [] [])]
        none (1/100) (1/10)
      = Except.error "AttributeError: NoneType object has no attribute keys" :=
  mesh_from_polygons_none_resolutions (fun a _ => a)
    [("core", Geometry.polygon [] [])] (1/100) (1/10) (by simp)
